import Mathlib

set_option maxHeartbeats 1000000

/-!
Shallow embedding of the SignalGP V2 execution stepper core
(source/SGP-V2/ExecutionStepper.h and source/SGP-V2/MemoryModel.h).

Machine integers of the source (size_t) are modelled as Nat with explicit
reduction modulo 2 ^ 64 at the single place where the source can wrap
(the expression modules[0].begin - 1 in UpdateModules).
-/

namespace SignalGP

/-- Word size of the machine: size_t arithmetic wraps modulo this value. -/
def SZ : Nat := 2 ^ 64

/-- The value obtained by converting -1 to size_t, used by the source as a
sentinel for a not-yet-closed module end. -/
def SZMAX : Nat := SZ - 1

/-- size_t subtraction of one: b - 1 with wrap-around at zero, as computed by
the source expression modules[0].begin - 1. -/
def sub1 (b : Nat) : Nat := (b + (SZ - 1)) % SZ

/-- One instruction of a SimpleProgram: opcode id, tag arguments and numeric
arguments (LinearProgram.h; only the opcode id and the tags matter to the
stepper core). -/
structure Inst (Tag : Type) where
  id : Nat
  tags : List Tag
  args : List Int
deriving DecidableEq

/-- Module definition discovered by UpdateModules (struct Module in
ExecutionStepper.h): id, begin, end, tag and the member-position set
in_module (std::unordered_set, modelled as a Finset). -/
structure Module (Tag : Type) where
  id : Nat
  begin_ : Nat
  end_ : Nat
  tag : Tag
  in_module : Finset Nat
deriving DecidableEq

/-- Flow types (enum class FlowType in ExecutionStepper.h). -/
inductive FlowType where
  | BASIC
  | WHILE_LOOP
  | ROUTINE
  | CALL
deriving DecidableEq

/-- FlowInfo of ExecutionStepper.h. Field order matches the declaration and
constructor parameter order of the source: type, mp, ip, begin, end. -/
structure FlowInfo where
  type : FlowType
  mp : Nat
  ip : Nat
  begin_ : Nat
  end_ : Nat
deriving DecidableEq

/-- SimpleMemoryState of MemoryModel.h: three buffers mapping int to double.
The buffers are only ever created empty by this core, so the value type is
modelled with Rat (no floating-point computation occurs). -/
structure SimpleMemoryState where
  working_mem : List (Int × Rat)
  input_mem : List (Int × Rat)
  output_mem : List (Int × Rat)
deriving DecidableEq

/-- SimpleMemoryModel of MemoryModel.h: owns a global buffer. -/
structure SimpleMemoryModel where
  global_mem : List (Int × Rat)
deriving DecidableEq

/-- SimpleMemoryModel::CreateMemoryState: returns a memory state made of the
three given buffers (each defaulting to empty at the call sites). -/
def SimpleMemoryModel.CreateMemoryState (_model : SimpleMemoryModel)
    (working input output : List (Int × Rat)) : SimpleMemoryState :=
  ⟨working, input, output⟩

/-- CallState of ExecutionStepper.h: local memory plus a stack of flows.
The back of the list is the top of the stack, as with emp::vector. -/
structure CallState where
  memory : SimpleMemoryState
  flow_stack : List FlowInfo
deriving DecidableEq

/-- ExecState of ExecutionStepper.h: the per-thread call stack. -/
structure ExecState where
  call_stack : List CallState
deriving DecidableEq

/-- Error outcome of InitThread when the emp_assert guard on the module id
fails (reported as an invalid module id). -/
inductive InitError where
  | InvalidModuleId
deriving DecidableEq

/-- Signal produced by a single execution step. -/
inductive StepSignal where
  | ThreadHalted
  | Executed
deriving DecidableEq

variable {Tag : Type}

/-- Helper of UpdateModules: modules.back().end = v on a nonempty module
list (no-op on an empty one, matching the guarded source call sites). -/
def setEndLast : List (Module Tag) → Nat → List (Module Tag)
  | [], _ => []
  | [m], v => [⟨m.id, m.begin_, v, m.tag, m.in_module⟩]
  | a :: b :: rest, v => a :: setEndLast (b :: rest) v

/-- Helper of UpdateModules: modules.back().in_module.emplace(p). -/
def addMemberLast : List (Module Tag) → Nat → List (Module Tag)
  | [], _ => []
  | [m], p => [⟨m.id, m.begin_, m.end_, m.tag, insert p m.in_module⟩]
  | a :: b :: rest, p => a :: addMemberLast (b :: rest) p

/-- Helper of UpdateModules: the final loop inserting every dangling position
into modules.back().in_module (insertion into an unordered_set is
order-independent, hence a Finset union). -/
def addMembersLast : List (Module Tag) → Finset Nat → List (Module Tag)
  | [], _ => []
  | [m], s => [⟨m.id, m.begin_, m.end_, m.tag, m.in_module ∪ s⟩]
  | a :: b :: rest, s => a :: addMembersLast (b :: rest) s

/-- One iteration of the UpdateModules scan loop at position pos.
hp is the external opcode-metadata lookup: hp i holds when opcode i carries
the MODULE property. A module-defining instruction closes the previous
module (end = pos), then opens a new one with id = modules.size(),
begin = pos + 1 (or 0 past the end of the program), end = (size_t)-1 and
the first tag of the instruction (the source asserts the tag list is
nonempty; headD supplies the default value only outside that precondition).
A plain instruction is recorded in the current module, or as dangling when
no module exists yet. -/
def scanInst [Inhabited Tag] (hp : Nat → Bool) (N : Nat)
    (st : List (Module Tag) × Finset Nat) (pos : Nat) (inst : Inst Tag) :
    List (Module Tag) × Finset Nat :=
  if hp inst.id then
    let mods := setEndLast st.1 pos
    (mods ++ [⟨mods.length, if pos + 1 < N then pos + 1 else 0, SZMAX,
              inst.tags.headD default, ∅⟩], st.2)
  else if st.1.isEmpty then (st.1, insert pos st.2)
  else (addMemberLast st.1 pos, st.2)

/-- The UpdateModules scan loop from position pos over the remaining
instructions. -/
def scanFrom [Inhabited Tag] (hp : Nat → Bool) (N : Nat) :
    Nat → List (Inst Tag) → (List (Module Tag) × Finset Nat) →
    List (Module Tag) × Finset Nat
  | _, [], st => st
  | pos, inst :: rest, st => scanFrom hp N (pos + 1) rest (scanInst hp N st pos inst)

/-- Begin field of the first module (modules[0].begin); only used on
nonempty lists by UpdateModules. -/
def firstBegin : List (Module Tag) → Nat
  | [] => 0
  | m :: _ => m.begin_

/-- SimpleExecutionStepper::UpdateModules: clear the module table, return at
once for an empty program, otherwise scan for module definitions, fix the end
of the last module (with the size_t wrap of modules[0].begin - 1 kept
explicit), synthesize a single default module when no definition was found,
and hand the dangling positions to the last module. -/
def updateModules [Inhabited Tag] (hp : Nat → Bool) (dflt : Tag)
    (prog : List (Inst Tag)) : List (Module Tag) :=
  if prog.length = 0 then []
  else
    let scanned := scanFrom hp prog.length 0 prog ([], ∅)
    let mods :=
      if scanned.1.isEmpty then [⟨0, 0, prog.length, dflt, ∅⟩]
      else setEndLast scanned.1
        (if 0 < sub1 (firstBegin scanned.1) then sub1 (firstBegin scanned.1)
         else prog.length)
    addMembersLast mods scanned.2

/-- The matchbin entries written by ResetMatchBin: Set(i, modules[i].tag, i)
for i in module-table order. -/
def rebuildEntries (mods : List (Module Tag)) : List (Nat × Tag × Nat) :=
  mods.enum.map (fun e => (e.1, e.2.tag, e.1))

/-- The state owned by one SimpleExecutionStepper: the opcode-metadata
lookup (inst_lib reduced to the one query the core makes), the memory model,
the program, the module table, the default module tag, the matchbin entries
and the dirty flag. -/
structure Stepper (Tag : Type) where
  hasModuleProp : Nat → Bool
  memory_model : SimpleMemoryModel
  program : List (Inst Tag)
  modules : List (Module Tag)
  default_module_tag : Tag
  matchbin : List (Nat × Tag × Nat)
  is_matchbin_cache_dirty : Bool

/-- SimpleExecutionStepper::ResetMatchBin: clear the matchbin, clear the
dirty flag, then re-insert one entry per module in table order. -/
def Stepper.ResetMatchBin (s : Stepper Tag) : Stepper Tag :=
  { s with matchbin := rebuildEntries s.modules, is_matchbin_cache_dirty := false }

/-- SimpleExecutionStepper::UpdateModules at the stepper level: recompute the
module table; for a nonempty program finish with ResetMatchBin, for an empty
program return early (matchbin and dirty flag untouched). -/
def Stepper.UpdateModules [Inhabited Tag] (s : Stepper Tag) : Stepper Tag :=
  let s1 := { s with
    modules := updateModules s.hasModuleProp s.default_module_tag s.program }
  if s.program.length = 0 then s1 else s1.ResetMatchBin

/-- SimpleExecutionStepper::SetProgram: install the program, then run
UpdateModules. -/
def Stepper.SetProgram [Inhabited Tag] (s : Stepper Tag)
    (p : List (Inst Tag)) : Stepper Tag :=
  Stepper.UpdateModules { s with program := p }

/-- SimpleExecutionStepper::SetDefaultTag. -/
def Stepper.SetDefaultTag (s : Stepper Tag) (t : Tag) : Stepper Tag :=
  { s with default_module_tag := t }

/-- SimpleExecutionStepper::FindModuleMatch: rebuild the matchbin when the
cache is dirty, then query the external approximate matcher (an opaque
collaborator, passed as a function of the current entries). Returns the
stepper state after the possible rebuild together with the match result. -/
def Stepper.FindModuleMatch
    (matcher : List (Nat × Tag × Nat) → Tag → Nat → List Nat)
    (s : Stepper Tag) (tag : Tag) (n : Nat) : Stepper Tag × List Nat :=
  let s1 := if s.is_matchbin_cache_dirty then s.ResetMatchBin else s
  (s1, matcher s1.matchbin tag n)

/-- SimpleExecutionStepper::InitThread: guarded by the emp_assert on the
module id (modelled as an error return, before any mutation). On a valid id:
clear the call stack when nonempty, push one fresh CallState whose memory is
CreateMemoryState() with all-empty buffers, and push one flow built by the
FlowInfo constructor. The source passes the arguments
(CALL, module_info.begin, module_id, module_info.begin, module_info.end) to
the constructor whose parameters are (type, mp, ip, begin, end); the
embedding reproduces that argument order exactly. -/
def Stepper.InitThread (s : Stepper Tag) (state : ExecState) (module_id : Nat) :
    Except InitError ExecState :=
  if h : module_id < s.modules.length then
    let cleared : ExecState := if state.call_stack.isEmpty then state else ⟨[]⟩
    let m := s.modules[module_id]
    Except.ok ⟨cleared.call_stack ++
      [⟨s.memory_model.CreateMemoryState [] [] [],
        [⟨FlowType.CALL, m.begin_, module_id, m.begin_, m.end_⟩]⟩]⟩
  else Except.error InitError.InvalidModuleId

/-- Modelled from the spec: SimpleExecutionStepper::SingleExecutionStep in
the source is an unimplemented placeholder that only prints a debug line, so
the stepping behavior itself is missing from the sources. Spec section 4.5:
calling single_step on an Idle state (empty call_stack) is a no-op that
signals ThreadHalted; the behavior on a Running state is delegated to the
external instruction-dispatch contract, taken here as the parameter
runningStep. -/
def SingleExecutionStep (runningStep : ExecState → StepSignal × ExecState)
    (state : ExecState) : StepSignal × ExecState :=
  if state.call_stack.isEmpty then (StepSignal.ThreadHalted, state)
  else runningStep state

/-- Marker positions of the program together with the first tag of each
module-defining instruction, scanning from absolute position pos. This is
the specification-side description of which instructions the UpdateModules
scan treats as module boundaries. -/
def markerList [Inhabited Tag] (hp : Nat → Bool) :
    Nat → List (Inst Tag) → List (Nat × Tag)
  | _, [] => []
  | pos, inst :: rest =>
    if hp inst.id then (pos, inst.tags.headD default) :: markerList hp (pos + 1) rest
    else markerList hp (pos + 1) rest

/-- The ideal module list produced by the scan for the given marker list,
with ids starting at sid: each module spans from just past its marker to the
next marker (the last one stays open with end = (size_t)-1 and collects the
member positions up to the end of the program). -/
def buildScan (N : Nat) : Nat → List (Nat × Tag) → List (Module Tag)
  | _, [] => []
  | sid, [(p, t)] =>
    [⟨sid, if p + 1 < N then p + 1 else 0, SZMAX, t, Finset.Ico (p + 1) N⟩]
  | sid, (p, t) :: (p2, t2) :: ps =>
    ⟨sid, if p + 1 < N then p + 1 else 0, p2, t, Finset.Ico (p + 1) p2⟩ ::
      buildScan N (sid + 1) ((p2, t2) :: ps)

/-- Shape of the tail of the scan result from position pos onward, given the
open module ml carried into that suffix and the marker list of the suffix:
with no further marker the open module just collects the remaining
positions; with a further marker at p it is closed at p and the rest of the
scan builds fresh modules with ids from sid on. -/
def scanTail (N : Nat) (ml : Module Tag) (sid : Nat) (pos : Nat) :
    List (Nat × Tag) → List (Module Tag)
  | [] => [⟨ml.id, ml.begin_, ml.end_, ml.tag, ml.in_module ∪ Finset.Ico pos N⟩]
  | (p, t) :: ps =>
    ⟨ml.id, ml.begin_, p, ml.tag, ml.in_module ∪ Finset.Ico pos p⟩ ::
      buildScan N sid ((p, t) :: ps)

/-- First marker position of a marker list, with the program size as the
value for an empty list. -/
def firstMarkerBound (N : Nat) : List (Nat × Tag) → Nat
  | [] => N
  | (p, _) :: _ => p

/-- Body of a module as the claims describe it: the instruction indices of
[begin, end), taken circularly (wrapping past the end of the program) when
begin exceeds end, restricted to valid positions. -/
def bodySet (N : Nat) (m : Module Tag) : Finset Nat :=
  if m.begin_ ≤ m.end_ then Finset.Ico m.begin_ m.end_ ∩ Finset.range N
  else Finset.Ico m.begin_ N ∪ Finset.range m.end_

/-- All positions a module claims: its member set together with its body. -/
def claimSet (N : Nat) (m : Module Tag) : Finset Nat :=
  m.in_module ∪ bodySet N m

/-- Union of the claim sets of a module list. -/
def unionClaims (N : Nat) : List (Module Tag) → Finset Nat
  | [] => ∅
  | m :: rest => claimSet N m ∪ unionClaims N rest

/-- Demo opcode-metadata lookup: opcode 1 carries the MODULE property. -/
def hpDemo : Nat → Bool := fun i => i == 1

/-- Demo plain instruction (opcode 0, no MODULE property). -/
def nopInst : Inst Nat := ⟨0, [], []⟩

/-- Demo module-defining instruction with the given first tag. -/
def markInst (t : Nat) : Inst Nat := ⟨1, [t], []⟩

/-- A freshly constructed stepper: empty program, empty module table, empty
matchbin and the dirty flag set, as established by the source constructor. -/
def mkStepper (hp : Nat → Bool) (dflt : Nat) : Stepper Nat :=
  ⟨hp, ⟨[]⟩, [], [], dflt, [], true⟩

/-- Demo external matcher: returns the values of the first n entries; on an
empty entry list it returns the empty sequence, as the external matching
structure does. -/
def takeMatcher : List (Nat × Nat × Nat) → Nat → Nat → List Nat :=
  fun entries _ n => (entries.map (fun e => e.2.2)).take n

theorem setEndLast_concat (ms : List (Module Tag)) (m : Module Tag) (v : Nat) :
    setEndLast (ms ++ [m]) v = ms ++ [⟨m.id, m.begin_, v, m.tag, m.in_module⟩] := by
  induction ms with
  | nil => rfl
  | cons a as ih =>
    cases as with
    | nil => rfl
    | cons b bs =>
      simp only [List.cons_append] at ih ⊢
      simp only [setEndLast]
      rw [ih]

theorem addMemberLast_concat (ms : List (Module Tag)) (m : Module Tag) (p : Nat) :
    addMemberLast (ms ++ [m]) p
      = ms ++ [⟨m.id, m.begin_, m.end_, m.tag, insert p m.in_module⟩] := by
  induction ms with
  | nil => rfl
  | cons a as ih =>
    cases as with
    | nil => rfl
    | cons b bs =>
      simp only [List.cons_append] at ih ⊢
      simp only [addMemberLast]
      rw [ih]

theorem addMembersLast_concat (ms : List (Module Tag)) (m : Module Tag) (s : Finset Nat) :
    addMembersLast (ms ++ [m]) s
      = ms ++ [⟨m.id, m.begin_, m.end_, m.tag, m.in_module ∪ s⟩] := by
  induction ms with
  | nil => rfl
  | cons a as ih =>
    cases as with
    | nil => rfl
    | cons b bs =>
      simp only [List.cons_append] at ih ⊢
      simp only [addMembersLast]
      rw [ih]

theorem insert_union_Ico (S : Finset Nat) (a b : Nat) (h : a < b) :
    insert a S ∪ Finset.Ico (a + 1) b = S ∪ Finset.Ico a b := by
  ext x
  simp only [Finset.mem_union, Finset.mem_insert, Finset.mem_Ico]
  constructor
  · rintro ((h0 | hS) | ⟨h1, h2⟩)
    · exact Or.inr ⟨by omega, by omega⟩
    · exact Or.inl hS
    · exact Or.inr ⟨by omega, h2⟩
  · rintro (hS | ⟨h1, h2⟩)
    · exact Or.inl (Or.inr hS)
    · by_cases hxa : x = a
      · exact Or.inl (Or.inl hxa)
      · exact Or.inr ⟨by omega, h2⟩

theorem markerList_mem_bounds [Inhabited Tag] (hp : Nat → Bool) :
    ∀ (rest : List (Inst Tag)) (pos : Nat) (q : Nat × Tag),
      q ∈ markerList hp pos rest → pos ≤ q.1 ∧ q.1 < pos + rest.length := by
  intro rest
  induction rest with
  | nil =>
    intro pos q h
    simp [markerList] at h
  | cons i is ih =>
    intro pos q h
    simp only [markerList] at h
    by_cases hm : hp i.id
    · rw [if_pos hm] at h
      rcases List.mem_cons.mp h with h1 | h2
      · subst h1
        simp only [List.length_cons]
        omega
      · have := ih (pos + 1) q h2
        simp only [List.length_cons]
        omega
    · rw [if_neg hm] at h
      have := ih (pos + 1) q h
      simp only [List.length_cons]
      omega

theorem markerList_pairwise [Inhabited Tag] (hp : Nat → Bool) :
    ∀ (rest : List (Inst Tag)) (pos : Nat),
      List.Pairwise (fun a b : Nat × Tag => a.1 < b.1) (markerList hp pos rest) := by
  intro rest
  induction rest with
  | nil =>
    intro pos
    simp [markerList]
  | cons i is ih =>
    intro pos
    simp only [markerList]
    by_cases hm : hp i.id
    · rw [if_pos hm]
      refine List.Pairwise.cons ?_ (ih (pos + 1))
      intro b hb
      have := markerList_mem_bounds hp is (pos + 1) b hb
      omega
    · rw [if_neg hm]
      exact ih (pos + 1)

theorem scanFrom_append [Inhabited Tag] (hp : Nat → Bool) (N : Nat) :
    ∀ (rest : List (Inst Tag)) (pos : Nat) (ms : List (Module Tag))
      (ml : Module Tag) (dang : Finset Nat),
      pos + rest.length = N →
      scanFrom hp N pos rest (ms ++ [ml], dang)
        = (ms ++ scanTail N ml (ms.length + 1) pos (markerList hp pos rest), dang) := by
  intro rest
  induction rest with
  | nil =>
    intro pos ms ml dang hN
    simp only [List.length_nil, Nat.add_zero] at hN
    subst hN
    simp only [scanFrom, markerList, scanTail, Finset.Ico_self, Finset.union_empty]
  | cons i is ih =>
    intro pos ms ml dang hN
    simp only [List.length_cons] at hN
    simp only [scanFrom]
    by_cases hm : hp i.id
    · have hinst : scanInst hp N (ms ++ [ml], dang) pos i
          = ((ms ++ [⟨ml.id, ml.begin_, pos, ml.tag, ml.in_module⟩]) ++
              [⟨ms.length + 1, if pos + 1 < N then pos + 1 else 0, SZMAX,
                i.tags.headD default, ∅⟩], dang) := by
        simp only [scanInst, if_pos hm, setEndLast_concat]
        simp
      rw [hinst, ih (pos + 1) _ _ dang (by omega)]
      simp only [markerList, if_pos hm]
      cases hml2 : markerList hp (pos + 1) is with
      | nil =>
        simp only [scanTail, buildScan, List.length_append, List.length_cons,
          List.length_nil, Finset.empty_union, Finset.Ico_self, Finset.union_empty,
          List.append_assoc, List.cons_append, List.nil_append]
      | cons q qs =>
        cases q with
        | mk p2 t2 =>
          simp only [scanTail, buildScan, List.length_append, List.length_cons,
            List.length_nil, Finset.empty_union, Finset.Ico_self, Finset.union_empty,
            List.append_assoc, List.cons_append, List.nil_append]
    · have hne : (ms ++ [ml]).isEmpty = false := by
        cases ms <;> rfl
      have hinst : scanInst hp N (ms ++ [ml], dang) pos i
          = (ms ++ [⟨ml.id, ml.begin_, ml.end_, ml.tag, insert pos ml.in_module⟩], dang) := by
        simp only [scanInst, if_neg hm, hne, Bool.false_eq_true, if_false,
          addMemberLast_concat]
      rw [hinst, ih (pos + 1) _ _ dang (by omega)]
      simp only [markerList, if_neg hm]
      cases hml2 : markerList hp (pos + 1) is with
      | nil =>
        simp only [scanTail]
        rw [insert_union_Ico ml.in_module pos N (by omega)]
      | cons q qs =>
        cases q with
        | mk p2 t2 =>
          have hmem : (p2, t2) ∈ markerList hp (pos + 1) is := by
            rw [hml2]
            exact List.mem_cons_self _ _
          have hb := markerList_mem_bounds hp is (pos + 1) (p2, t2) hmem
          simp only [scanTail]
          rw [insert_union_Ico ml.in_module pos p2 (by omega)]

theorem scanFrom_nil_start [Inhabited Tag] (hp : Nat → Bool) (N : Nat) :
    ∀ (rest : List (Inst Tag)) (pos : Nat) (dang : Finset Nat),
      pos + rest.length = N →
      scanFrom hp N pos rest ([], dang)
        = (buildScan N 0 (markerList hp pos rest),
           dang ∪ Finset.Ico pos (firstMarkerBound N (markerList hp pos rest))) := by
  intro rest
  induction rest with
  | nil =>
    intro pos dang hN
    simp only [List.length_nil, Nat.add_zero] at hN
    subst hN
    simp only [scanFrom, markerList, buildScan, firstMarkerBound, Finset.Ico_self,
      Finset.union_empty]
  | cons i is ih =>
    intro pos dang hN
    simp only [List.length_cons] at hN
    simp only [scanFrom]
    by_cases hm : hp i.id
    · have hinst : scanInst hp N (([] : List (Module Tag)), dang) pos i
          = ([] ++ [⟨0, if pos + 1 < N then pos + 1 else 0, SZMAX,
              i.tags.headD default, ∅⟩], dang) := by
        simp only [scanInst, if_pos hm, setEndLast]
        simp
      rw [hinst, scanFrom_append hp N is (pos + 1) [] _ dang (by omega)]
      simp only [markerList, if_pos hm, firstMarkerBound, Finset.Ico_self,
        Finset.union_empty, List.length_nil, List.nil_append]
      cases hml2 : markerList hp (pos + 1) is with
      | nil =>
        simp only [scanTail, buildScan, Finset.empty_union]
      | cons q qs =>
        cases q with
        | mk p2 t2 =>
          simp only [scanTail, buildScan, Finset.empty_union]
    · have hinst : scanInst hp N (([] : List (Module Tag)), dang) pos i
          = ([], insert pos dang) := by
        simp only [scanInst, if_neg hm, List.isEmpty_nil, if_true]
      rw [hinst, ih (pos + 1) (insert pos dang) (by omega)]
      simp only [markerList, if_neg hm]
      cases hml2 : markerList hp (pos + 1) is with
      | nil =>
        simp only [firstMarkerBound]
        rw [insert_union_Ico dang pos N (by omega)]
      | cons q qs =>
        cases q with
        | mk p2 t2 =>
          have hmem : (p2, t2) ∈ markerList hp (pos + 1) is := by
            rw [hml2]
            exact List.mem_cons_self _ _
          have hb := markerList_mem_bounds hp is (pos + 1) (p2, t2) hmem
          simp only [firstMarkerBound]
          rw [insert_union_Ico dang pos p2 (by omega)]

theorem sub1_succ (b : Nat) (h : b < SZ) : sub1 (b + 1) = b := by
  unfold sub1
  have h1 : 0 < SZ := by norm_num [SZ]
  have h2 : b + 1 + (SZ - 1) = b + SZ := by omega
  rw [h2, Nat.add_mod_right]
  exact Nat.mod_eq_of_lt h

theorem firstBegin_buildScan (N sid p0 : Nat) (t0 : Tag) (mtl : List (Nat × Tag)) :
    firstBegin (buildScan N sid ((p0, t0) :: mtl))
      = if p0 + 1 < N then p0 + 1 else 0 := by
  cases mtl with
  | nil => rfl
  | cons q qs =>
    cases q with
    | mk a b => rfl

theorem buildScan_cons_isEmpty (N sid p0 : Nat) (t0 : Tag) (mtl : List (Nat × Tag)) :
    (buildScan N sid ((p0, t0) :: mtl)).isEmpty = false := by
  cases mtl with
  | nil => rfl
  | cons q qs =>
    cases q with
    | mk a b => rfl

theorem buildScan_cons_ne_nil (N sid p0 : Nat) (t0 : Tag) (mtl : List (Nat × Tag)) :
    buildScan N sid ((p0, t0) :: mtl) ≠ [] := by
  cases mtl with
  | nil => simp [buildScan]
  | cons q qs =>
    cases q with
    | mk a b => simp [buildScan]

theorem setEndLast_cons_ne (a : Module Tag) (l : List (Module Tag)) (hl : l ≠ [])
    (v : Nat) : setEndLast (a :: l) v = a :: setEndLast l v := by
  cases l with
  | nil => exact absurd rfl hl
  | cons b bs => rfl

theorem addMembersLast_cons_ne (a : Module Tag) (l : List (Module Tag)) (hl : l ≠ [])
    (s : Finset Nat) : addMembersLast (a :: l) s = a :: addMembersLast l s := by
  cases l with
  | nil => exact absurd rfl hl
  | cons b bs => rfl

theorem setEndLast_ne_nil (l : List (Module Tag)) (hl : l ≠ []) (v : Nat) :
    setEndLast l v ≠ [] := by
  cases l with
  | nil => exact absurd rfl hl
  | cons b bs =>
    cases bs with
    | nil => simp [setEndLast]
    | cons c cs => simp [setEndLast]

theorem compileNoMarkers [Inhabited Tag] (hp : Nat → Bool) (dflt : Tag)
    (prog : List (Inst Tag)) (h : markerList hp 0 prog = []) :
    updateModules hp dflt prog
      = if prog.length = 0 then []
        else [⟨0, 0, prog.length, dflt, Finset.range prog.length⟩] := by
  by_cases hlen : prog.length = 0
  · simp [updateModules, hlen]
  · rw [if_neg hlen]
    simp only [updateModules, if_neg hlen]
    rw [scanFrom_nil_start hp prog.length prog 0 ∅ (by omega), h]
    simp only [buildScan, firstMarkerBound, List.isEmpty_nil, if_true,
      addMembersLast, Finset.empty_union]
    rw [← Finset.range_eq_Ico]

theorem updateModules_markers [Inhabited Tag] (hp : Nat → Bool) (dflt : Tag)
    (prog : List (Inst Tag)) (p0 : Nat) (t0 : Tag) (mtl : List (Nat × Tag))
    (h : markerList hp 0 prog = (p0, t0) :: mtl) :
    updateModules hp dflt prog
      = addMembersLast
          (setEndLast (buildScan prog.length 0 ((p0, t0) :: mtl))
            (if 0 < sub1 (if p0 + 1 < prog.length then p0 + 1 else 0)
             then sub1 (if p0 + 1 < prog.length then p0 + 1 else 0)
             else prog.length))
          (Finset.Ico 0 p0) := by
  have hlen : ¬ prog.length = 0 := by
    intro h0
    rw [List.length_eq_zero] at h0
    subst h0
    simp [markerList] at h
  simp only [updateModules, if_neg hlen]
  rw [scanFrom_nil_start hp prog.length prog 0 ∅ (by omega), h]
  simp only [buildScan_cons_isEmpty, Bool.false_eq_true, if_false,
    firstBegin_buildScan, firstMarkerBound, Finset.empty_union]

theorem claimSet_subset_unionClaims (N : Nat) (M : List (Module Tag))
    (m : Module Tag) (h : m ∈ M) : claimSet N m ⊆ unionClaims N M := by
  induction M with
  | nil => cases h
  | cons a as ih =>
    rcases List.mem_cons.mp h with h1 | h2
    · subst h1
      simp only [unionClaims]
      exact Finset.subset_union_left
    · simp only [unionClaims]
      exact subset_trans (ih h2) Finset.subset_union_right

theorem finalize_claims (N : Nat) :
    ∀ (ptl : List (Nat × Tag)) (ph : Nat) (th : Tag) (sid E p0 : Nat),
      List.Pairwise (fun a b : Nat × Tag => a.1 < b.1) ((ph, th) :: ptl) →
      (∀ q ∈ (ph, th) :: ptl, q.1 + 1 < N) →
      p0 ≤ ph →
      ((0 < p0 ∧ E = p0) ∨ (p0 = 0 ∧ E = N)) →
      unionClaims N
          (addMembersLast (setEndLast (buildScan N sid ((ph, th) :: ptl)) E)
            (Finset.Ico 0 p0))
        = (Finset.Ico (ph + 1) N \ (((ph, th) :: ptl).map Prod.fst).toFinset)
            ∪ Finset.Ico 0 p0
      ∧ List.Pairwise (fun a b => claimSet N a ∩ claimSet N b = ∅)
          (addMembersLast (setEndLast (buildScan N sid ((ph, th) :: ptl)) E)
            (Finset.Ico 0 p0)) := by
  intro ptl
  induction ptl with
  | nil =>
    intro ph th sid E p0 hpw hbd hp0 hE
    have hphN : ph + 1 < N := hbd (ph, th) (List.mem_cons_self _ _)
    simp only [buildScan, if_pos hphN, setEndLast, addMembersLast]
    refine ⟨?_, by simp⟩
    simp only [unionClaims, Finset.union_empty, claimSet, bodySet,
      List.map_cons, List.map_nil, List.toFinset_cons, List.toFinset_nil]
    rcases hE with ⟨h0, hEp⟩ | ⟨h0, hEp⟩
    · rw [hEp]
      rw [if_neg (by omega : ¬ (ph + 1 ≤ p0))]
      ext x
      simp only [Finset.mem_union, Finset.mem_sdiff, Finset.mem_Ico,
        Finset.mem_range, Finset.mem_insert, Finset.not_mem_empty, or_false]
      omega
    · rw [hEp]
      rw [if_pos (by omega : ph + 1 ≤ N)]
      ext x
      simp only [Finset.mem_union, Finset.mem_sdiff, Finset.mem_inter, Finset.mem_Ico,
        Finset.mem_range, Finset.mem_insert, Finset.not_mem_empty, or_false]
      omega
  | cons q qtl ih =>
    obtain ⟨p2, t2⟩ := q
    intro ph th sid E p0 hpw hbd hp0 hE
    have hpw2 : List.Pairwise (fun a b : Nat × Tag => a.1 < b.1) ((p2, t2) :: qtl) :=
      (List.pairwise_cons.mp hpw).2
    have hph_lt : ph < p2 :=
      (List.pairwise_cons.mp hpw).1 (p2, t2) (List.mem_cons_self _ _)
    have hphN : ph + 1 < N := hbd (ph, th) (List.mem_cons_self _ _)
    have hp2N : p2 + 1 < N :=
      hbd (p2, t2) (List.mem_cons_of_mem _ (List.mem_cons_self _ _))
    have hgt : ∀ y ∈ qtl, p2 < y.1 := (List.pairwise_cons.mp hpw2).1
    have htail_ne : buildScan N (sid + 1) ((p2, t2) :: qtl) ≠ [] :=
      buildScan_cons_ne_nil N (sid + 1) p2 t2 qtl
    have hbuild : buildScan N sid ((ph, th) :: (p2, t2) :: qtl)
        = ⟨sid, if ph + 1 < N then ph + 1 else 0, p2, th, Finset.Ico (ph + 1) p2⟩
          :: buildScan N (sid + 1) ((p2, t2) :: qtl) := rfl
    rw [hbuild, setEndLast_cons_ne _ _ htail_ne,
      addMembersLast_cons_ne _ _ (setEndLast_ne_nil _ htail_ne E)]
    obtain ⟨ihU, ihP⟩ := ih p2 t2 (sid + 1) E p0 hpw2
      (fun r hr => hbd r (List.mem_cons_of_mem _ hr)) (by omega) hE
    have hclaim : claimSet N
        ⟨sid, if ph + 1 < N then ph + 1 else 0, p2, th, Finset.Ico (ph + 1) p2⟩
        = Finset.Ico (ph + 1) p2 := by
      simp only [claimSet, bodySet]
      rw [if_pos hphN, if_pos (by omega : ph + 1 ≤ p2)]
      ext x
      simp only [Finset.mem_union, Finset.mem_inter, Finset.mem_Ico, Finset.mem_range]
      omega
    constructor
    · simp only [unionClaims, hclaim, ihU]
      ext x
      simp only [Finset.mem_union, Finset.mem_sdiff, Finset.mem_Ico, List.map_cons,
        List.toFinset_cons, Finset.mem_insert, List.mem_toFinset]
      have hx' : x ∈ qtl.map Prod.fst → p2 < x := by
        intro hx
        obtain ⟨y, hy, hyx⟩ := List.mem_map.mp hx
        have := hgt y hy
        omega
      constructor
      · rintro (⟨h1, h2⟩ | (⟨⟨h1, h2⟩, h3⟩ | ⟨h1, h2⟩))
        · refine Or.inl ⟨⟨h1, by omega⟩, ?_⟩
          rintro (rfl | rfl | hm)
          · omega
          · omega
          · have := hx' hm
            omega
        · refine Or.inl ⟨⟨by omega, h2⟩, ?_⟩
          rintro (rfl | hor)
          · omega
          · exact h3 hor
        · exact Or.inr ⟨h1, h2⟩
      · rintro (⟨⟨h1, h2⟩, h3⟩ | ⟨h1, h2⟩)
        · by_cases hxp2 : x < p2
          · exact Or.inl ⟨h1, hxp2⟩
          · have hne2 : ¬ (x = p2 ∨ x ∈ qtl.map Prod.fst) := fun hor => h3 (Or.inr hor)
            have : x ≠ p2 := fun he => hne2 (Or.inl he)
            refine Or.inr (Or.inl ⟨⟨by omega, h2⟩, hne2⟩)
        · exact Or.inr (Or.inr ⟨h1, h2⟩)
    · refine List.pairwise_cons.mpr ⟨?_, ihP⟩
      intro m hm
      have hsub := claimSet_subset_unionClaims N _ m hm
      rw [ihU] at hsub
      rw [hclaim, Finset.eq_empty_iff_forall_not_mem]
      intro x hx
      rw [Finset.mem_inter] at hx
      have hx1 := hx.1
      have hx2 := hsub hx.2
      rw [Finset.mem_Ico] at hx1
      rw [Finset.mem_union, Finset.mem_sdiff, Finset.mem_Ico] at hx2
      rcases hx2 with ⟨⟨h1, h2⟩, h3⟩ | h4
      · omega
      · rw [Finset.mem_Ico] at h4
        omega

theorem buildScan_mem_gt (N : Nat) :
    ∀ (ptl : List (Nat × Tag)) (ph : Nat) (th : Tag) (sid : Nat),
      List.Pairwise (fun a b : Nat × Tag => a.1 < b.1) ((ph, th) :: ptl) →
      ∀ m ∈ buildScan N sid ((ph, th) :: ptl), ∀ x ∈ m.in_module, ph < x := by
  intro ptl
  induction ptl with
  | nil =>
    intro ph th sid hpw m hm x hx
    simp only [buildScan, List.mem_singleton] at hm
    subst hm
    simp only [Finset.mem_Ico] at hx
    omega
  | cons q qtl ih =>
    obtain ⟨p2, t2⟩ := q
    intro ph th sid hpw m hm x hx
    have hpw2 := (List.pairwise_cons.mp hpw).2
    have hph_lt : ph < p2 :=
      (List.pairwise_cons.mp hpw).1 (p2, t2) (List.mem_cons_self _ _)
    simp only [buildScan] at hm
    rcases List.mem_cons.mp hm with h1 | h2
    · subst h1
      simp only [Finset.mem_Ico] at hx
      omega
    · have := ih p2 t2 (sid + 1) hpw2 m h2 x hx
      omega

/-- C2 amended: for every program in which no module-defining instruction is
the final instruction (and whose size fits in size_t), the union of all
module member sets together with each module body, the body taken
circularly when begin exceeds end, equals the full index range minus the
positions of the module-defining instructions themselves, and no two
modules claim a common position. -/
theorem updateModules_cover [Inhabited Tag] (hp : Nat → Bool) (dflt : Tag)
    (prog : List (Inst Tag)) (hN : prog.length < SZ)
    (hlast : ∀ q ∈ markerList hp 0 prog, q.1 + 1 < prog.length) :
    unionClaims prog.length (updateModules hp dflt prog)
      = Finset.range prog.length \ ((markerList hp 0 prog).map Prod.fst).toFinset
    ∧ List.Pairwise
        (fun a b => claimSet prog.length a ∩ claimSet prog.length b = ∅)
        (updateModules hp dflt prog) := by
  cases hml : markerList hp 0 prog with
  | nil =>
    rw [compileNoMarkers hp dflt prog hml]
    by_cases hlen : prog.length = 0
    · rw [if_pos hlen, hlen]
      exact ⟨by simp [unionClaims], by simp⟩
    · rw [if_neg hlen]
      constructor
      · simp only [unionClaims, List.map_nil, List.toFinset_nil, Finset.sdiff_empty,
          Finset.union_empty, claimSet, bodySet]
        rw [if_pos (by omega : (0 : Nat) ≤ prog.length)]
        ext x
        simp only [Finset.mem_union, Finset.mem_inter, Finset.mem_Ico, Finset.mem_range]
        omega
      · simp
  | cons q mtl =>
    obtain ⟨p0, t0⟩ := q
    have hb0 : p0 + 1 < prog.length :=
      hlast (p0, t0) (by rw [hml]; exact List.mem_cons_self _ _)
    have hpw : List.Pairwise (fun a b : Nat × Tag => a.1 < b.1) ((p0, t0) :: mtl) := by
      have := markerList_pairwise hp prog 0
      rwa [hml] at this
    have hbd : ∀ r ∈ (p0, t0) :: mtl, r.1 + 1 < prog.length := by
      intro r hr
      apply hlast
      rw [hml]
      exact hr
    rw [updateModules_markers hp dflt prog p0 t0 mtl hml]
    rw [if_pos hb0, sub1_succ p0 (by omega)]
    have hEd : (0 < p0 ∧ (if 0 < p0 then p0 else prog.length) = p0)
        ∨ (p0 = 0 ∧ (if 0 < p0 then p0 else prog.length) = prog.length) := by
      by_cases h0 : 0 < p0
      · exact Or.inl ⟨h0, if_pos h0⟩
      · exact Or.inr ⟨by omega, if_neg h0⟩
    obtain ⟨hU, hP⟩ := finalize_claims prog.length mtl p0 t0 0
      (if 0 < p0 then p0 else prog.length) p0 hpw hbd (Nat.le_refl p0) hEd
    · constructor
      · rw [hU]
        have hmem : ∀ r ∈ ((p0, t0) :: mtl).map Prod.fst, p0 ≤ r := by
          intro r hr
          obtain ⟨y, hy, hyr⟩ := List.mem_map.mp hr
          rcases List.mem_cons.mp hy with h1 | h2
          · subst h1
            omega
          · have := (List.pairwise_cons.mp hpw).1 y h2
            omega
        have hp0X : p0 ∈ ((p0, t0) :: mtl).map Prod.fst :=
          List.mem_map.mpr ⟨(p0, t0), List.mem_cons_self _ _, rfl⟩
        ext x
        simp only [Finset.mem_union, Finset.mem_sdiff, Finset.mem_Ico,
          Finset.mem_range, List.mem_toFinset]
        constructor
        · rintro (⟨⟨h1, h2⟩, h3⟩ | ⟨h1, h2⟩)
          · exact ⟨by omega, h3⟩
          · refine ⟨by omega, ?_⟩
            intro hxX
            have := hmem x hxX
            omega
        · rintro ⟨h1, h2⟩
          by_cases hxp : x < p0
          · exact Or.inr ⟨by omega, hxp⟩
          · left
            refine ⟨⟨?_, h1⟩, h2⟩
            have : x ≠ p0 := fun he => h2 (he ▸ hp0X)
            omega
      · exact hP

/-- C2 counterexample: on the two-instruction program [module marker; nop]
the only module claims exactly position 1 (its member set and its body),
while the full index range is the two positions 0 and 1: the position of
the module-defining instruction itself is claimed by no module, so the
union is not the full range that the claim asserts. -/
theorem updateModules_cover_counterexample :
    unionClaims 2 (updateModules hpDemo 0 [markInst 5, nopInst]) ≠ Finset.range 2 := by
  decide

/-- Witness for C2 amended on the program [nop; marker; nop]. -/
theorem updateModules_cover_witness :
    (([nopInst, markInst 5, nopInst] : List (Inst Nat)).length < SZ
      ∧ (∀ q ∈ markerList hpDemo 0 [nopInst, markInst 5, nopInst],
          q.1 + 1 < ([nopInst, markInst 5, nopInst] : List (Inst Nat)).length))
    ∧ (unionClaims 3 (updateModules hpDemo 0 [nopInst, markInst 5, nopInst])
        = Finset.range 3
            \ ((markerList hpDemo 0 [nopInst, markInst 5, nopInst]).map Prod.fst).toFinset
      ∧ List.Pairwise (fun a b => claimSet 3 a ∩ claimSet 3 b = ∅)
          (updateModules hpDemo 0 [nopInst, markInst 5, nopInst])) :=
  ⟨⟨by decide, by decide⟩,
    updateModules_cover hpDemo 0 [nopInst, markInst 5, nopInst] (by decide) (by decide)⟩

/-- C5 counterexample: the empty program does not compile to one default
module; UpdateModules returns before synthesizing anything, so the module
table is empty. -/
theorem updateModules_empty_program_no_module :
    (updateModules hpDemo 0 ([] : List (Inst Nat))).length ≠ 1 := by
  decide

/-- C5 amended: a program without any module-defining instruction compiles
to the empty module table when the program is empty (UpdateModules returns
before synthesizing anything), and otherwise to exactly one module with
id 0, begin 0, end = program size, the configured default tag, and every
position of the program as a member. -/
theorem updateModules_no_markers [Inhabited Tag] (hp : Nat → Bool) (dflt : Tag)
    (prog : List (Inst Tag)) (h : markerList hp 0 prog = []) :
    updateModules hp dflt prog
      = if prog.length = 0 then []
        else [⟨0, 0, prog.length, dflt, Finset.range prog.length⟩] :=
  compileNoMarkers hp dflt prog h

/-- Witness for C5 amended on a concrete nonempty marker-free program. -/
theorem updateModules_no_markers_witness :
    markerList hpDemo 0 [nopInst, nopInst] = []
    ∧ updateModules hpDemo 0 [nopInst, nopInst]
        = if ([nopInst, nopInst] : List (Inst Nat)).length = 0 then []
          else [⟨0, 0, 2, 0, Finset.range 2⟩] :=
  ⟨by decide, updateModules_no_markers hpDemo 0 [nopInst, nopInst] (by decide)⟩

/-- C9: in every program with at least one module-defining instruction,
every position before the first such instruction ends up in the member set
of the last discovered module and of no other module. -/
theorem updateModules_dangling [Inhabited Tag] (hp : Nat → Bool) (dflt : Tag)
    (prog : List (Inst Tag)) (p0 : Nat) (t0 : Tag) (mtl : List (Nat × Tag)) (q : Nat)
    (hml : markerList hp 0 prog = (p0, t0) :: mtl) (hq : q < p0) :
    updateModules hp dflt prog ≠ []
    ∧ q ∈ ((updateModules hp dflt prog).getLastD ⟨0, 0, 0, default, ∅⟩).in_module
    ∧ ∀ m ∈ (updateModules hp dflt prog).dropLast, q ∉ m.in_module := by
  rw [updateModules_markers hp dflt prog p0 t0 mtl hml]
  have hpw : List.Pairwise (fun a b : Nat × Tag => a.1 < b.1) ((p0, t0) :: mtl) := by
    have := markerList_pairwise hp prog 0
    rwa [hml] at this
  obtain ⟨bs, bl, hbs⟩ : ∃ bs bl,
      buildScan prog.length 0 ((p0, t0) :: mtl) = bs ++ [bl] := by
    rcases List.eq_nil_or_concat (buildScan prog.length 0 ((p0, t0) :: mtl)) with h | h
    · exact absurd h (buildScan_cons_ne_nil prog.length 0 p0 t0 mtl)
    · obtain ⟨L, b, hL⟩ := h
      exact ⟨L, b, by rw [hL, List.concat_eq_append]⟩
  rw [hbs, setEndLast_concat, addMembersLast_concat]
  refine ⟨by simp, ?_, ?_⟩
  · rw [List.getLastD_concat]
    simp only [Finset.mem_union, Finset.mem_Ico]
    omega
  · rw [List.dropLast_concat]
    intro m hm
    have hmem : m ∈ buildScan prog.length 0 ((p0, t0) :: mtl) := by
      rw [hbs]
      exact List.mem_append_left _ hm
    intro hqm
    have := buildScan_mem_gt prog.length mtl p0 t0 0 hpw m hmem q hqm
    omega

/-- Witness for C9: positions 0 and 1 of the program [nop; nop; marker; nop]
precede the single marker at position 2; position 0 lands in the member set
of the last (and only) module and of no earlier module. -/
theorem updateModules_dangling_witness :
    (markerList hpDemo 0 [nopInst, nopInst, markInst 5, nopInst] = [(2, 5)]
      ∧ (0 : Nat) < 2)
    ∧ (updateModules hpDemo 0 [nopInst, nopInst, markInst 5, nopInst] ≠ []
      ∧ 0 ∈ ((updateModules hpDemo 0 [nopInst, nopInst, markInst 5, nopInst]).getLastD
          ⟨0, 0, 0, 0, ∅⟩).in_module
      ∧ ∀ m ∈ (updateModules hpDemo 0 [nopInst, nopInst, markInst 5, nopInst]).dropLast,
          0 ∉ m.in_module) :=
  ⟨⟨by decide, by decide⟩,
    updateModules_dangling hpDemo 0 [nopInst, nopInst, markInst 5, nopInst]
      2 5 [] 0 (by decide) (by decide)⟩

/-- C10: SetDefaultTag changes only the stored default tag; the program,
the module table (tags of already-synthesized modules included), the
matchbin and the dirty flag are untouched, and the new tag is the one used
at the next compilation of a marker-free program. -/
theorem setDefaultTag_frame [Inhabited Tag] (s : Stepper Tag) (t : Tag)
    (p : List (Inst Tag)) (hne : p ≠ [])
    (hnm : markerList s.hasModuleProp 0 p = []) :
    (s.SetDefaultTag t).program = s.program
    ∧ (s.SetDefaultTag t).modules = s.modules
    ∧ (s.SetDefaultTag t).matchbin = s.matchbin
    ∧ (s.SetDefaultTag t).is_matchbin_cache_dirty = s.is_matchbin_cache_dirty
    ∧ (s.SetDefaultTag t).default_module_tag = t
    ∧ ((s.SetDefaultTag t).SetProgram p).modules
        = [⟨0, 0, p.length, t, Finset.range p.length⟩] := by
  refine ⟨rfl, rfl, rfl, rfl, rfl, ?_⟩
  have hlen : ¬ p.length = 0 := fun h0 => hne (List.length_eq_zero.mp h0)
  simp only [Stepper.SetDefaultTag, Stepper.SetProgram, Stepper.UpdateModules,
    Stepper.ResetMatchBin, if_neg hlen]
  rw [compileNoMarkers s.hasModuleProp t p hnm, if_neg hlen]

/-- Witness for C10 at a concrete stepper, tag and marker-free program. -/
theorem setDefaultTag_frame_witness :
    (([nopInst] : List (Inst Nat)) ≠ []
      ∧ markerList (mkStepper hpDemo 0).hasModuleProp 0 [nopInst] = [])
    ∧ (((mkStepper hpDemo 0).SetDefaultTag 4).program = (mkStepper hpDemo 0).program
      ∧ ((mkStepper hpDemo 0).SetDefaultTag 4).modules = (mkStepper hpDemo 0).modules
      ∧ ((mkStepper hpDemo 0).SetDefaultTag 4).matchbin = (mkStepper hpDemo 0).matchbin
      ∧ ((mkStepper hpDemo 0).SetDefaultTag 4).is_matchbin_cache_dirty
          = (mkStepper hpDemo 0).is_matchbin_cache_dirty
      ∧ ((mkStepper hpDemo 0).SetDefaultTag 4).default_module_tag = 4
      ∧ (((mkStepper hpDemo 0).SetDefaultTag 4).SetProgram [nopInst]).modules
          = [⟨0, 0, 1, 4, Finset.range 1⟩]) :=
  ⟨⟨by decide, by decide⟩,
    setDefaultTag_frame (mkStepper hpDemo 0) 4 [nopInst] (by decide) (by decide)⟩

/-- C6: for every module id at or past the module count, InitThread fails
with InvalidModuleId and produces no new execution state (the guard precedes
every mutation, so the prior state of the thread is untouched). -/
theorem initThread_invalid_module_id (s : Stepper Tag) (st : ExecState)
    (m : Nat) (h : s.modules.length ≤ m) :
    s.InitThread st m = Except.error InitError.InvalidModuleId := by
  unfold Stepper.InitThread
  rw [dif_neg]
  omega

/-- Witness for C6 at a concrete out-of-range id. -/
theorem initThread_invalid_module_id_witness :
    (mkStepper hpDemo 0).modules.length ≤ 3 ∧
      (mkStepper hpDemo 0).InitThread ⟨[]⟩ 3
        = Except.error InitError.InvalidModuleId :=
  ⟨by decide, initThread_invalid_module_id (mkStepper hpDemo 0) ⟨[]⟩ 3 (by decide)⟩

/-- C7: single_step on an Idle execution state (empty call stack) signals
ThreadHalted and returns the state unchanged, for any behavior of the
external instruction-dispatch contract. -/
theorem singleStep_idle_halts (runningStep : ExecState → StepSignal × ExecState)
    (st : ExecState) (h : st.call_stack = []) :
    SingleExecutionStep runningStep st = (StepSignal.ThreadHalted, st) := by
  unfold SingleExecutionStep
  rw [if_pos]
  rw [h]
  rfl

/-- Witness for C7 on the concrete Idle state. -/
theorem singleStep_idle_halts_witness :
    (⟨[]⟩ : ExecState).call_stack = [] ∧
      SingleExecutionStep (fun s => (StepSignal.Executed, s)) ⟨[]⟩
        = (StepSignal.ThreadHalted, ⟨[]⟩) :=
  ⟨rfl, singleStep_idle_halts (fun s => (StepSignal.Executed, s)) ⟨[]⟩ rfl⟩

/-- C1: evaluation of InitThread on the program [module marker; nop], where
module 0 spans [1, 2). The produced flow carries mp = 1 (the module begin)
and ip = 0 (the module id): the begin value lands in the module-pointer
field and the id in the instruction-pointer field, the reverse of what the
claim states, because InitThread passes (begin, module_id) to a constructor
declared (mp, ip). The final inequality records that the two fields really
differ on this input. Every other part of the claim is visible in the
result: one call frame, one CALL flow, flow begin 1 and end 2, fresh empty
memory, prior call stack discarded. -/
theorem initThread_swaps_mp_ip :
    ((mkStepper hpDemo 0).SetProgram [markInst 5, nopInst]).InitThread
        ⟨[⟨⟨[], [], []⟩, []⟩, ⟨⟨[], [], []⟩, []⟩]⟩ 0
      = Except.ok ⟨[⟨⟨[], [], []⟩, [⟨FlowType.CALL, 1, 0, 1, 2⟩]⟩]⟩
    ∧ (⟨FlowType.CALL, 1, 0, 1, 2⟩ : FlowInfo).ip
        ≠ (⟨FlowType.CALL, 1, 0, 1, 2⟩ : FlowInfo).begin_ := by
  constructor
  · rfl
  · decide

/-- C3: evaluation of UpdateModules on the one-instruction program whose
single instruction is a module marker. The single module gets begin = 0 and
end = 2 ^ 64 - 1: the source computes modules[0].begin - 1 in size_t, which
wraps to SZMAX when begin = 0, and the guard (... > 0) then accepts it, so
the end is not set to the program size 1 that the claim (and the comments in
the source) require. -/
theorem updateModules_marker_last_underflow :
    updateModules hpDemo 0 [markInst 5] = [⟨0, 0, SZMAX, 5, ∅⟩]
    ∧ SZMAX ≠ 1 := by
  constructor
  · decide
  · decide

/-- C4 counterexample: loading a nonempty program through SetProgram leaves
the dirty flag cleared, not set: UpdateModules finishes by calling
ResetMatchBin, which eagerly rebuilds the matchbin and clears the flag. -/
theorem setProgram_leaves_flag_clear :
    ((mkStepper hpDemo 0).SetProgram [nopInst]).is_matchbin_cache_dirty = false := by
  decide

/-- C4 amended: after SetProgram with a nonempty program the Tag Index has
been rebuilt eagerly from the new module table (one entry per module in
table order) with the dirty flag cleared, and the next FindModuleMatch
answers from exactly those entries without any further rebuild. -/
theorem setProgram_nonempty_rebuilds_index [Inhabited Tag] (s : Stepper Tag)
    (p : List (Inst Tag)) (matcher : List (Nat × Tag × Nat) → Tag → Nat → List Nat)
    (t : Tag) (n : Nat) (hne : p ≠ []) :
    (s.SetProgram p).is_matchbin_cache_dirty = false
    ∧ (s.SetProgram p).matchbin = rebuildEntries ((s.SetProgram p).modules)
    ∧ Stepper.FindModuleMatch matcher (s.SetProgram p) t n
        = (s.SetProgram p, matcher (rebuildEntries ((s.SetProgram p).modules)) t n) := by
  have hlen : ¬ p.length = 0 := fun h => hne (List.length_eq_zero.mp h)
  unfold Stepper.SetProgram Stepper.UpdateModules
  simp only [if_neg hlen]
  unfold Stepper.ResetMatchBin Stepper.FindModuleMatch
  simp

/-- Witness for C4 amended at a concrete nonempty program. -/
theorem setProgram_nonempty_rebuilds_index_witness :
    [nopInst] ≠ [] ∧
      (((mkStepper hpDemo 0).SetProgram [nopInst]).is_matchbin_cache_dirty = false
      ∧ ((mkStepper hpDemo 0).SetProgram [nopInst]).matchbin
          = rebuildEntries (((mkStepper hpDemo 0).SetProgram [nopInst]).modules)
      ∧ Stepper.FindModuleMatch takeMatcher ((mkStepper hpDemo 0).SetProgram [nopInst]) 3 1
          = ((mkStepper hpDemo 0).SetProgram [nopInst],
             takeMatcher (rebuildEntries (((mkStepper hpDemo 0).SetProgram [nopInst]).modules)) 3 1)) :=
  ⟨by decide, setProgram_nonempty_rebuilds_index (mkStepper hpDemo 0) [nopInst]
    takeMatcher 3 1 (by decide)⟩

/-- C8 counterexample: in the reachable state obtained by loading a nonempty
program and then the empty program, the module table is empty, yet
FindModuleMatch answers from the stale matchbin of the previous program and
returns module id 0 instead of the empty sequence: the early return of
UpdateModules for an empty program skips both the matchbin rebuild and the
dirty marking. -/
theorem findModuleMatch_stale_after_empty_program :
    (((mkStepper hpDemo 7).SetProgram [nopInst]).SetProgram []).modules = []
    ∧ (Stepper.FindModuleMatch takeMatcher
        (((mkStepper hpDemo 7).SetProgram [nopInst]).SetProgram []) 9 1).2 = [0]
    ∧ ([0] : List Nat) ≠ [] := by
  refine ⟨by decide, by decide, by decide⟩

/-- C8 amended: on a dirty index, FindModuleMatch first replaces all entries
with one (module.id, module.tag, module.id) entry per module in table order
and clears the dirty flag, and only then answers the query from those
entries; in particular, against an empty module table with a dirty index
(the state of a freshly constructed stepper) it returns the empty sequence
whenever the external matcher returns nothing on an empty entry list. After
compiling an empty program, however, the index is left stale and can report
modules of the previous program. -/
theorem findModuleMatch_dirty_rebuilds (matcher : List (Nat × Tag × Nat) → Tag → Nat → List Nat)
    (s : Stepper Tag) (t : Tag) (n : Nat)
    (hd : s.is_matchbin_cache_dirty = true) :
    (Stepper.FindModuleMatch matcher s t n).1.matchbin = rebuildEntries s.modules
    ∧ (Stepper.FindModuleMatch matcher s t n).1.is_matchbin_cache_dirty = false
    ∧ (Stepper.FindModuleMatch matcher s t n).2 = matcher (rebuildEntries s.modules) t n
    ∧ (s.modules = [] → matcher [] t n = [] →
        (Stepper.FindModuleMatch matcher s t n).2 = []) := by
  unfold Stepper.FindModuleMatch Stepper.ResetMatchBin
  rw [if_pos hd]
  refine ⟨rfl, rfl, rfl, ?_⟩
  intro hmods hmt
  simp only [hmods, rebuildEntries, List.enum_nil, List.map_nil]
  exact hmt

/-- Witness for C8 amended on a freshly constructed stepper. -/
theorem findModuleMatch_dirty_rebuilds_witness :
    (mkStepper hpDemo 0).is_matchbin_cache_dirty = true ∧
      ((Stepper.FindModuleMatch takeMatcher (mkStepper hpDemo 0) 3 1).1.matchbin
          = rebuildEntries (mkStepper hpDemo 0).modules
      ∧ (Stepper.FindModuleMatch takeMatcher (mkStepper hpDemo 0) 3 1).1.is_matchbin_cache_dirty = false
      ∧ (Stepper.FindModuleMatch takeMatcher (mkStepper hpDemo 0) 3 1).2
          = takeMatcher (rebuildEntries (mkStepper hpDemo 0).modules) 3 1
      ∧ ((mkStepper hpDemo 0).modules = [] → takeMatcher [] 3 1 = [] →
          (Stepper.FindModuleMatch takeMatcher (mkStepper hpDemo 0) 3 1).2 = [])) :=
  ⟨rfl, findModuleMatch_dirty_rebuilds takeMatcher (mkStepper hpDemo 0) 3 1 rfl⟩

end SignalGP
